import Mathlib

/-
  Verification of the two-stage RNN preferential-subspace-identification model
  (src/rnn_ipsid_nonlinear.py) against its natural-language specification.

  Tensors of shape (batch, time, feature) are embedded as curried functions
  `Fin B → Fin T → Fin D → ℝ`; a torch `nn.Linear(i, o)` layer is a weight
  matrix `Fin o → Fin i → ℝ` together with a bias vector `Fin o → ℝ`, applied
  as `x ↦ W x + b`.  The double-precision floats of the source are idealised
  as real numbers.
-/

namespace RnnIpsid

noncomputable section

/-- Embedding of `torch.nn.Linear(inD, outD)`: an affine map with weight and
bias, `apply x i = (∑ j, weight i j * x j) + bias i`. -/
structure Linear (inD outD : Nat) where
  weight : Fin outD → Fin inD → ℝ
  bias : Fin outD → ℝ

/-- Application of a linear layer to a feature vector (`x @ W.T + b`). -/
def Linear.apply {inD outD : Nat} (L : Linear inD outD) (x : Fin inD → ℝ) :
    Fin outD → ℝ :=
  fun i => (∑ j, L.weight i j * x j) + L.bias i

/-- `torch.nn.ReLU`, componentwise `max 0 x`. -/
def relu (x : ℝ) : ℝ := max 0 x

/-- `torch.nn.Sigmoid`, componentwise `1 / (1 + exp (-x))`. -/
def sigmoid (x : ℝ) : ℝ := 1 / (1 + Real.exp (-x))

/-- `Optim1Cell` (source lines 11-21): the Stage-1 recurrence cell holding the
three affine maps `W_A : Dxb → Dxb`, `W_K : Dy → Dxb`, `W_B : Du → Dxb`. -/
structure Optim1Cell (x_size y_size u_size : Nat) where
  W_A : Linear x_size x_size
  W_K : Linear y_size x_size
  W_B : Linear u_size x_size

/-- `Optim1Cell.forward`: `xNext = W_A(xBehav_t) + W_K(y_t) + W_B(u_t)`. -/
def Optim1Cell.forward {xs ys us : Nat} (c : Optim1Cell xs ys us)
    (xBehav_t : Fin xs → ℝ) (y_t : Fin ys → ℝ) (u_t : Fin us → ℝ) :
    Fin xs → ℝ :=
  fun i => c.W_A.apply xBehav_t i + c.W_K.apply y_t i + c.W_B.apply u_t i

/-- `NonlinearOptim1CellZ` (source lines 24-36): the Stage-1 behavioral
decoder, two affine layers with a ReLU between them and a sigmoid after. -/
structure NonlinearOptim1CellZ (xBehav_size zhat_size : Nat) where
  Cz1_lin : Linear xBehav_size xBehav_size
  Cz1_lin2 : Linear xBehav_size zhat_size

/-- `NonlinearOptim1CellZ.forward`: `sigmoid (Cz1_lin2 (relu (Cz1_lin x)))`. -/
def NonlinearOptim1CellZ.forward {xb zh : Nat}
    (c : NonlinearOptim1CellZ xb zh) (xBehav_t : Fin xb → ℝ) : Fin zh → ℝ :=
  fun i => sigmoid (c.Cz1_lin2.apply (fun j => relu (c.Cz1_lin.apply xBehav_t j)) i)

/-- `Optim1` (source lines 38-70): Stage-1 dynamics plus behavioral decoder. -/
structure Optim1 (xBehav_size y_size u_size zhat_size : Nat) where
  rnn_cell : Optim1Cell xBehav_size y_size u_size
  nonlinear_cellZ : NonlinearOptim1CellZ xBehav_size zhat_size

/-- Total extension of a `Fin T`-indexed time series to `Nat` indices, used
only to phrase the structural recursion of the forward loops; every theorem
below reads it at indices `t < T` only, exactly the range of the source's
`for t in range(seq_len)` loop, so the out-of-range default is never
observed. -/
def padT {T D : Nat} (x : Fin T → Fin D → ℝ) (t : Nat) : Fin D → ℝ :=
  if h : t < T then x ⟨t, h⟩ else fun _ => 0

/-- The state sequence of `Optim1.forward`'s loop for one batch element:
`x 0 = 0`, `x (t+1) = rnn_cell.forward (x t) (y t) (u t)` (source lines
51, 62, 65). -/
def Optim1.states {T xb ys us zh : Nat} (m : Optim1 xb ys us zh)
    (y : Fin T → Fin ys → ℝ) (u : Fin T → Fin us → ℝ) : Nat → Fin xb → ℝ
  | 0 => fun _ => 0
  | t + 1 => m.rnn_cell.forward (Optim1.states m y u t) (padT y t) (padT u t)

/-- `Optim1.forward` (source lines 46-70): returns `(z_hats1, behavStates)`;
`behavStates[b,t]` is the state before the step-`t` update and
`z_hats1[b,t]` is the decoder applied to that same state (the final computed
update, `states (y b) (u b) T`, is never stacked). -/
def Optim1.forward {B T xb ys us zh : Nat} (m : Optim1 xb ys us zh)
    (y : Fin B → Fin T → Fin ys → ℝ) (u : Fin B → Fin T → Fin us → ℝ) :
    (Fin B → Fin T → Fin zh → ℝ) × (Fin B → Fin T → Fin xb → ℝ) :=
  ( fun b t => m.nonlinear_cellZ.forward (Optim1.states m (y b) (u b) t.1)
  , fun b t => Optim1.states m (y b) (u b) t.1 )

/-- `Optim2` (source lines 72-94): the Stage-1 neural decoder, applied
per time step. -/
structure Optim2 (xBehav_size yhat_size : Nat) where
  Cy1_lin : Linear xBehav_size xBehav_size
  Cy1_lin2 : Linear xBehav_size yhat_size

/-- `Optim2.forward`: per-step `sigmoid (Cy1_lin2 (relu (Cy1_lin x_t)))`. -/
def Optim2.forward {B T xb yh : Nat} (m : Optim2 xb yh)
    (xBehav : Fin B → Fin T → Fin xb → ℝ) : Fin B → Fin T → Fin yh → ℝ :=
  fun b t i => sigmoid (m.Cy1_lin2.apply (fun j => relu (m.Cy1_lin.apply (xBehav b t) j)) i)

/-- `Optim3Cell` (source lines 101-110): Stage-2 recurrence cell;
`W_K` consumes the concatenation of `y` and the Stage-1 states, hence has
input width `y_size + xBehavioral_size`. -/
structure Optim3Cell (xBehavioral_size xNeural_size y_size u_size : Nat) where
  W_A : Linear xNeural_size xNeural_size
  W_K : Linear (y_size + xBehavioral_size) xNeural_size
  W_B : Linear u_size xNeural_size

/-- `Optim3Cell.forward`: `xNext = W_A(xNeural_t) + W_K(yAndxBehav_t) + W_B(u_t)`. -/
def Optim3Cell.forward {xb xn ys us : Nat} (c : Optim3Cell xb xn ys us)
    (xNeural_t : Fin xn → ℝ) (yAndxBehav_t : Fin (ys + xb) → ℝ)
    (u_t : Fin us → ℝ) : Fin xn → ℝ :=
  fun i => c.W_A.apply xNeural_t i + c.W_K.apply yAndxBehav_t i + c.W_B.apply u_t i

/-- `NonlinearOptim3CellY` (source lines 113-125): the Stage-2 neural
decoder. -/
structure NonlinearOptim3CellY (xNeural_size yhat_size : Nat) where
  Cy2_lin : Linear xNeural_size xNeural_size
  Cy2_lin2 : Linear xNeural_size yhat_size

/-- `NonlinearOptim3CellY.forward`: `sigmoid (Cy2_lin2 (relu (Cy2_lin x)))`. -/
def NonlinearOptim3CellY.forward {xn yh : Nat}
    (c : NonlinearOptim3CellY xn yh) (xNeural_t : Fin xn → ℝ) : Fin yh → ℝ :=
  fun i => sigmoid (c.Cy2_lin2.apply (fun j => relu (c.Cy2_lin.apply xNeural_t j)) i)

/-- `Optim3` (source lines 127-161): Stage-2 dynamics plus neural decoder. -/
structure Optim3 (xBehavioral_size xNeural_size y_size u_size yhat_size : Nat) where
  rnn_cell : Optim3Cell xBehavioral_size xNeural_size y_size u_size
  nonlinear_cellY : NonlinearOptim3CellY xNeural_size yhat_size

/-- The state sequence of `Optim3.forward`'s loop for one batch element,
driven by the already-concatenated `yAndxBehav` series (source lines
139, 152, 155). -/
def Optim3.states {T xb xn ys us yh : Nat} (m : Optim3 xb xn ys us yh)
    (yAndxBehav : Fin T → Fin (ys + xb) → ℝ) (u : Fin T → Fin us → ℝ) :
    Nat → Fin xn → ℝ
  | 0 => fun _ => 0
  | t + 1 => m.rnn_cell.forward (Optim3.states m yAndxBehav u t)
      (padT yAndxBehav t) (padT u t)

/-- `Optim3.forward` (source lines 134-161): concatenates `y` with
`behavStates` along the feature axis (`torch.cat((y, behavStates), dim=2)`,
`y` first) and returns `(y_hats2, xNeural_states)` with the same
state/readout alignment as Stage 1. -/
def Optim3.forward {B T xb xn ys us yh : Nat} (m : Optim3 xb xn ys us yh)
    (behavStates : Fin B → Fin T → Fin xb → ℝ)
    (y : Fin B → Fin T → Fin ys → ℝ) (u : Fin B → Fin T → Fin us → ℝ) :
    (Fin B → Fin T → Fin yh → ℝ) × (Fin B → Fin T → Fin xn → ℝ) :=
  ( fun b t => m.nonlinear_cellY.forward
      (Optim3.states m (fun s => Fin.append (y b s) (behavStates b s)) (u b) t.1)
  , fun b t => Optim3.states m (fun s => Fin.append (y b s) (behavStates b s)) (u b) t.1 )

/-- `Optim4` (source lines 163-184): the Stage-2 behavioral decoder, applied
per time step. -/
structure Optim4 (xNeural_size zhat_size : Nat) where
  Cz2_lin : Linear xNeural_size xNeural_size
  Cz2_lin2 : Linear xNeural_size zhat_size

/-- `Optim4.forward`: per-step `sigmoid (Cz2_lin2 (relu (Cz2_lin x_t)))`. -/
def Optim4.forward {B T xn zh : Nat} (m : Optim4 xn zh)
    (xNeural : Fin B → Fin T → Fin xn → ℝ) : Fin B → Fin T → Fin zh → ℝ :=
  fun b t i => sigmoid (m.Cz2_lin2.apply (fun j => relu (m.Cz2_lin.apply (xNeural b t) j)) i)

/-
  Operational list/Option model of `Optim1.forward` for the shape contract
  (claim C5).  A (B,T,D) tensor is a batch-list of time-lists of feature
  vectors; fallible torch operations (integer indexing `x[:, t, :]`, the
  shape check of `nn.Linear`, elementwise addition of equal-shaped tensors)
  return `none` where the Python call would raise.  The loop structure is
  exactly that of `Optim1.forward` (source lines 46-70): `seq_len` is read
  from `y.size()` alone, and `u` is only ever indexed at `t < seq_len`.
-/

/-- A feature vector: one row of doubles. -/
abbrev Vec := List ℝ

/-- A (batch, feature) matrix: one time slice. -/
abbrev Mat := List Vec

/-- A (batch, time, feature) tensor. -/
abbrev Ten3 := List (List Vec)

/-- `torch.nn.Linear`, list form: `in_features` is the stored input width
checked against the argument (torch raises on mismatch, modelled as
`none`). -/
structure LinearL where
  weight : List Vec
  bias : Vec
  in_features : Nat

/-- A dot product of two equal-length rows. -/
def dotL (w x : Vec) : ℝ := (List.zipWith (fun a b => a * b) w x).sum

/-- Apply a linear layer to one feature vector; `none` when the feature
width disagrees with `in_features` (torch shape error). -/
def LinearL.applyV (L : LinearL) (x : Vec) : Option Vec :=
  if x.length = L.in_features then
    some (List.zipWith (fun w b => dotL w x + b) L.weight L.bias)
  else none

/-- Apply a linear layer to each batch row of a matrix. -/
def LinearL.applyM (L : LinearL) : Mat → Option Mat
  | [] => some []
  | v :: vs => do
      let w ← L.applyV v
      let ws ← L.applyM vs
      pure (w :: ws)

/-- Elementwise sum of two feature vectors of equal length. -/
def addVL (a b : Vec) : Option Vec :=
  if a.length = b.length then some (List.zipWith (fun x y => x + y) a b)
  else none

/-- Elementwise sum of two matrices: equal batch sizes and row lengths
(broadcasting against a size-1 dimension is not modelled; no theorem below
depends on that corner). -/
def addML : Mat → Mat → Option Mat
  | [], [] => some []
  | a :: as, b :: bs => do
      let c ← addVL a b
      let cs ← addML as bs
      pure (c :: cs)
  | _, _ => none

/-- `x[:, t, :]`: index every batch row at time `t`; `none` when `t` is out
of range for some row (Python `IndexError`). -/
def sliceT : Ten3 → Nat → Option Mat
  | [], _ => some []
  | row :: rest, t => do
      let v ← row.get? t
      let vs ← sliceT rest t
      pure (v :: vs)

/-- `Optim1Cell`, list form. -/
structure Optim1CellL where
  W_A : LinearL
  W_K : LinearL
  W_B : LinearL

/-- `Optim1Cell.forward`, list form: `W_A(x) + W_K(y_t) + W_B(u_t)`. -/
def Optim1CellL.run (c : Optim1CellL) (x y_t u_t : Mat) : Option Mat := do
  let a ← c.W_A.applyM x
  let k ← c.W_K.applyM y_t
  let bu ← c.W_B.applyM u_t
  let s ← addML a k
  addML s bu

/-- `NonlinearOptim1CellZ`, list form. -/
structure NonlinearOptim1CellZL where
  Cz1_lin : LinearL
  Cz1_lin2 : LinearL

/-- Componentwise ReLU on a feature vector. -/
def reluV (v : Vec) : Vec := v.map (fun a => max 0 a)

/-- Componentwise sigmoid on a feature vector. -/
def sigmoidV (v : Vec) : Vec := v.map sigmoid

/-- `NonlinearOptim1CellZ.forward`, list form. -/
def NonlinearOptim1CellZL.run (c : NonlinearOptim1CellZL) (x : Mat) :
    Option Mat := do
  let a ← c.Cz1_lin.applyM x
  let b ← c.Cz1_lin2.applyM (a.map reluV)
  pure (b.map sigmoidV)

/-- `Optim1`, list form; `xBehav_size` is the stored latent width used to
build the zero initial state. -/
structure Optim1L where
  xBehav_size : Nat
  rnn_cell : Optim1CellL
  nonlinear_cellZ : NonlinearOptim1CellZL

/-- The body of `Optim1.forward`'s `for t in range(seq_len)` loop, over the
list `ts` of remaining time indices: append the current state, slice `y` and
`u` at `t`, update the state, decode the current state.  Returns the
per-step `(z_hats1, behavStates)` lists. -/
def Optim1L.loop (m : Optim1L) (y u : Ten3) :
    Mat → List Nat → Option (List Mat × List Mat)
  | _, [] => some ([], [])
  | x, t :: ts => do
      let y_t ← sliceT y t
      let u_t ← sliceT u t
      let x_next ← m.rnn_cell.run x y_t u_t
      let z ← m.nonlinear_cellZ.run x
      let (zs, xs) ← Optim1L.loop m y u x_next ts
      pure (z :: zs, x :: xs)

/-- `y.size(1)`: the sequence length of a uniformly-shaped tensor, read off
its first batch row (`y.size()` in the source, which takes it from `y`
alone). -/
def seqLenOf (y : Ten3) : Nat := ((y.head?).map List.length).getD 0

/-- `Optim1.forward`, list form: `batch_size, seq_len` are read from
`y.size()`; the state is initialised to zeros of width `xBehav_size`; the
loop runs over `range seq_len`.  The outputs are time-major lists of
(batch, feature) slices (the source's `torch.stack(·, dim=1)` transposes
them to batch-major, which renames indices but changes no value). -/
def Optim1L.run (m : Optim1L) (y u : Ten3) : Option (List Mat × List Mat) :=
  Optim1L.loop m y u
    (List.replicate y.length (List.replicate m.xBehav_size 0))
    (List.range (seqLenOf y))

/-- `Optim3Cell`, list form. -/
structure Optim3CellL where
  W_A : LinearL
  W_K : LinearL
  W_B : LinearL

/-- `Optim3Cell.forward`, list form: `W_A(x) + W_K(yAndxBehav_t) + W_B(u_t)`. -/
def Optim3CellL.run (c : Optim3CellL) (x yAndxBehav_t u_t : Mat) : Option Mat := do
  let a ← c.W_A.applyM x
  let k ← c.W_K.applyM yAndxBehav_t
  let bu ← c.W_B.applyM u_t
  let s ← addML a k
  addML s bu

/-- `NonlinearOptim3CellY`, list form. -/
structure NonlinearOptim3CellYL where
  Cy2_lin : LinearL
  Cy2_lin2 : LinearL

/-- `NonlinearOptim3CellY.forward`, list form. -/
def NonlinearOptim3CellYL.run (c : NonlinearOptim3CellYL) (x : Mat) :
    Option Mat := do
  let a ← c.Cy2_lin.applyM x
  let b ← c.Cy2_lin2.applyM (a.map reluV)
  pure (b.map sigmoidV)

/-- `torch.cat((y, behavStates), dim=2)`: concatenate feature vectors at
every (batch, time) position.  torch requires the non-concatenated
dimensions to agree exactly — equal batch counts and, per batch row, equal
time lengths — and raises otherwise (`none`). -/
def catDim2 : Ten3 → Ten3 → Option Ten3
  | [], [] => some []
  | a :: as, b :: bs =>
      if a.length = b.length then do
        let rest ← catDim2 as bs
        pure (List.zipWith (fun v w => v ++ w) a b :: rest)
      else none
  | _, _ => none

/-- `Optim3`, list form; `xNeural_size` is the stored residual width used to
build the zero initial state. -/
structure Optim3L where
  xNeural_size : Nat
  rnn_cell : Optim3CellL
  nonlinear_cellY : NonlinearOptim3CellYL

/-- The body of `Optim3.forward`'s `for t in range(seq_len)` loop (source
lines 148-155), over the already-concatenated `yAndxBehav` tensor. -/
def Optim3L.loop (m : Optim3L) (yAndxBehav u : Ten3) :
    Mat → List Nat → Option (List Mat × List Mat)
  | _, [] => some ([], [])
  | x, t :: ts => do
      let yAndxBehav_t ← sliceT yAndxBehav t
      let u_t ← sliceT u t
      let x_next ← m.rnn_cell.run x yAndxBehav_t u_t
      let y_pred ← m.nonlinear_cellY.run x
      let (ys, xs) ← Optim3L.loop m yAndxBehav u x_next ts
      pure (y_pred :: ys, x :: xs)

/-- `Optim3.forward`, list form (source lines 134-161): `batch_size,
seq_len` are read from `y.size()`; `torch.cat((y, behavStates), dim=2)`
runs before the loop (line 142), so its shape check fires before any loop
step; then the loop runs over `range seq_len`. -/
def Optim3L.run (m : Optim3L) (behavStates y u : Ten3) :
    Option (List Mat × List Mat) := do
  let yAndxBehav ← catDim2 y behavStates
  Optim3L.loop m yAndxBehav u
    (List.replicate y.length (List.replicate m.xNeural_size 0))
    (List.range (seqLenOf y))

/-
  Concrete instances used by the witness theorems below.
-/

/-- A concrete 1×1 affine layer with weight 1 and bias 1. -/
def linEx : Linear 1 1 := ⟨fun _ _ => 1, fun _ => 1⟩

/-- A concrete Stage-1 module with all widths 1. -/
def mEx : Optim1 1 1 1 1 := ⟨⟨linEx, linEx, linEx⟩, ⟨linEx, linEx⟩⟩

/-- A concrete (1,2,1) observation tensor, all ones. -/
def yEx2 : Fin 1 → Fin 2 → Fin 1 → ℝ := fun _ _ _ => 1

/-- A concrete (1,2,1) input tensor, all ones. -/
def uEx2 : Fin 1 → Fin 2 → Fin 1 → ℝ := fun _ _ _ => 1

/-- A second (1,2,1) observation tensor, constant 42, differing from
`yEx2`. -/
def yAlt2 : Fin 1 → Fin 2 → Fin 1 → ℝ := fun _ _ _ => 42

/-- A second (1,2,1) input tensor, constant 7, differing from `uEx2`. -/
def uAlt2 : Fin 1 → Fin 2 → Fin 1 → ℝ := fun _ _ _ => 7

/-- A concrete 2→1 affine layer with weight 1 and bias 1. -/
def lin2Ex : Linear 2 1 := ⟨fun _ _ => 1, fun _ => 1⟩

/-- A concrete Stage-2 module with all widths 1 (so `W_K` has input width
`1 + 1`). -/
def m3Ex : Optim3 1 1 1 1 1 := ⟨⟨linEx, lin2Ex, linEx⟩, ⟨linEx, linEx⟩⟩

/-- A concrete 1×1 affine layer that is identically zero. -/
def linZero : Linear 1 1 := ⟨fun _ _ => 0, fun _ => 0⟩

/-- A concrete 1×1 affine layer with weight 2 and bias 0. -/
def linB6 : Linear 1 1 := ⟨fun _ _ => 2, fun _ => 0⟩

/-- A Stage-1 module whose `W_A` and `W_K` maps are identically zero. -/
def mEx6 : Optim1 1 1 1 1 := ⟨⟨linZero, linZero, linB6⟩, ⟨linEx, linEx⟩⟩

/-- A concrete (1,3,1) observation tensor, all ones. -/
def yEx3 : Fin 1 → Fin 3 → Fin 1 → ℝ := fun _ _ _ => 1

/-- A concrete (1,3,1) input tensor with `u[t] = t`. -/
def uEx3 : Fin 1 → Fin 3 → Fin 1 → ℝ := fun _ t _ => (t.1 : ℝ)

/-- A Stage-1 recurrence cell with input width `Du = 0` whose `W_B` bias is
1 (torch's `nn.Linear` always carries a bias by default). -/
def cellEx7 : Optim1Cell 1 1 0 := ⟨linZero, linZero, ⟨fun _ j => j.elim0, fun _ => 1⟩⟩

/-- A concrete (1,8,1) observation tensor, all ones. -/
def yEx8 : Fin 1 → Fin 8 → Fin 1 → ℝ := fun _ _ _ => 1

/-- A concrete (1,8,1) input tensor, all ones. -/
def uEx8 : Fin 1 → Fin 8 → Fin 1 → ℝ := fun _ _ _ => 1

/-- The (1,5,1) prefix of `yEx8`. -/
def yEx5 : Fin 1 → Fin 5 → Fin 1 → ℝ := fun _ _ _ => 1

/-- The (1,5,1) prefix of `uEx8`. -/
def uEx5 : Fin 1 → Fin 5 → Fin 1 → ℝ := fun _ _ _ => 1

/-- A concrete 1→1 list-form layer, weight `[[0]]`, bias `[0]`. -/
def linL0 : LinearL := ⟨[[0]], [0], 1⟩

/-- A concrete list-form Stage-1 module with all widths 1. -/
def mEx5L : Optim1L := ⟨1, ⟨linL0, linL0, linL0⟩, ⟨linL0, linL0⟩⟩

/-- A concrete (1,1,1) list-form observation tensor. -/
def yEx5L : Ten3 := [[[0]]]

/-- A concrete (1,2,1) list-form input tensor: one time step longer than
`yEx5L`. -/
def uEx5L : Ten3 := [[[0], [0]]]

/-- A concrete 2→1 list-form layer, weight `[[0, 0]]`, bias `[0]`. -/
def linL2 : LinearL := ⟨[[0, 0]], [0], 2⟩

/-- A concrete list-form Stage-2 module with latent width 1 and `W_K` input
width 2. -/
def m3Ex5L : Optim3L := ⟨1, ⟨linL0, linL2, linL0⟩, ⟨linL0, linL0⟩⟩

end

/-
  Theorems settling the claims.
-/

section Claims

/-- C1: for every valid input pair `y : (B,T,Dy)`, `u : (B,T,Du)` with
`T ≥ 1`, the Stage-1 latent sequence returned by `Optim1.forward` satisfies
`x[0] = 0` and `x[t+1] = A·x[t] + K·y[t] + B·u[t]` (each affine map with its
own bias, as packaged in `Optim1Cell.forward`) for `t = 0..T-2`, and the
returned sequence is exactly the stacked states `x[0..T-1]` of length `T`:
the final computed update `x[T]` never appears in the output. -/
theorem C1_stage1_recurrence {B T xb ys us zh : Nat} (m : Optim1 xb ys us zh)
    (y : Fin B → Fin T → Fin ys → ℝ) (u : Fin B → Fin T → Fin us → ℝ)
    (b : Fin B) (hT : 0 < T) :
    (Optim1.forward m y u).2 b ⟨0, hT⟩ = (fun _ => 0)
    ∧ (∀ (t : Nat) (h : t + 1 < T),
        (Optim1.forward m y u).2 b ⟨t + 1, h⟩
          = m.rnn_cell.forward
              ((Optim1.forward m y u).2 b ⟨t, Nat.lt_of_succ_lt h⟩)
              (y b ⟨t, Nat.lt_of_succ_lt h⟩) (u b ⟨t, Nat.lt_of_succ_lt h⟩))
    ∧ (Optim1.forward m y u).2 b
        = fun t : Fin T => Optim1.states m (y b) (u b) t.1 := by
  refine ⟨rfl, ?_, rfl⟩
  intro t h
  show Optim1.states m (y b) (u b) (t + 1) = _
  simp [Optim1.states, padT, Nat.lt_of_succ_lt h]
  rfl

/-- Witness for C1 at a concrete module and concrete (1,2,1) inputs. -/
theorem C1_stage1_recurrence_witness :
    0 < 2
    ∧ ((Optim1.forward mEx yEx2 uEx2).2 0 ⟨0, by decide⟩ = (fun _ => 0)
      ∧ (∀ (t : Nat) (h : t + 1 < 2),
          (Optim1.forward mEx yEx2 uEx2).2 0 ⟨t + 1, h⟩
            = mEx.rnn_cell.forward
                ((Optim1.forward mEx yEx2 uEx2).2 0 ⟨t, Nat.lt_of_succ_lt h⟩)
                (yEx2 0 ⟨t, Nat.lt_of_succ_lt h⟩)
                (uEx2 0 ⟨t, Nat.lt_of_succ_lt h⟩))
      ∧ (Optim1.forward mEx yEx2 uEx2).2 0
          = fun t : Fin 2 => Optim1.states mEx (yEx2 0) (uEx2 0) t.1) :=
  ⟨by decide, C1_stage1_recurrence mEx yEx2 uEx2 0 (by decide)⟩

/-- C3: for every valid input and every time index `t`, the Stage-1
prediction `z_hats1[:,t,:]` of `Optim1.forward` equals the decoder pipeline
`sigmoid (lin2 (relu (lin1 ·)))` applied to the latent state at the same
index `t` (the state stored in `behavStates[:,t,:]`, not the update at
`t+1`), with the same decoder parameters at every time step. -/
theorem C3_decoder_time_alignment {B T xb ys us zh : Nat}
    (m : Optim1 xb ys us zh)
    (y : Fin B → Fin T → Fin ys → ℝ) (u : Fin B → Fin T → Fin us → ℝ)
    (b : Fin B) (t : Fin T) :
    (Optim1.forward m y u).1 b t
      = m.nonlinear_cellZ.forward ((Optim1.forward m y u).2 b t)
    ∧ ∀ x : Fin xb → ℝ,
        m.nonlinear_cellZ.forward x
          = fun i => sigmoid (m.nonlinear_cellZ.Cz1_lin2.apply
              (fun j => relu (m.nonlinear_cellZ.Cz1_lin.apply x j)) i) :=
  ⟨rfl, fun _ => rfl⟩

/-- C4: for every valid shape and input the Stage-1 latent sequence has the
zero vector at time index 0, for every batch element and every module
(hence a fixed constant, not a learned parameter). -/
theorem C4_zero_initial_state {B T xb ys us zh : Nat} (m : Optim1 xb ys us zh)
    (y : Fin B → Fin T → Fin ys → ℝ) (u : Fin B → Fin T → Fin us → ℝ)
    (b : Fin B) (hT : 0 < T) :
    (Optim1.forward m y u).2 b ⟨0, hT⟩ = fun _ => 0 := rfl

/-- Witness for C4 at a concrete module and concrete (1,2,1) inputs. -/
theorem C4_zero_initial_state_witness :
    0 < 2 ∧ (Optim1.forward mEx yEx2 uEx2).2 0 ⟨0, by decide⟩ = fun _ => 0 :=
  ⟨by decide, C4_zero_initial_state mEx yEx2 uEx2 0 (by decide)⟩

/-- C10: for any two valid inputs of the same shapes, `Optim1.forward`
produces identical outputs at time index 0: the latent state there is the
zero vector in both runs, and the prediction there is the decoder applied
to the zero vector — the same constant for every batch element and both
inputs, carrying no information about the input streams. -/
theorem C10_time0_input_independence {B T xb ys us zh : Nat}
    (m : Optim1 xb ys us zh)
    (y : Fin B → Fin T → Fin ys → ℝ) (u : Fin B → Fin T → Fin us → ℝ)
    (y' : Fin B → Fin T → Fin ys → ℝ) (u' : Fin B → Fin T → Fin us → ℝ)
    (b b' : Fin B) (hT : 0 < T) :
    (Optim1.forward m y u).2 b ⟨0, hT⟩ = (fun _ => 0)
    ∧ (Optim1.forward m y' u').2 b' ⟨0, hT⟩ = (fun _ => 0)
    ∧ (Optim1.forward m y u).1 b ⟨0, hT⟩
        = m.nonlinear_cellZ.forward (fun _ => 0)
    ∧ (Optim1.forward m y u).1 b ⟨0, hT⟩
        = (Optim1.forward m y' u').1 b' ⟨0, hT⟩ :=
  ⟨rfl, rfl, rfl, rfl⟩

/-- Witness for C10 at two concretely different input pairs. -/
theorem C10_time0_input_independence_witness :
    0 < 2
    ∧ ((Optim1.forward mEx yEx2 uEx2).2 0 ⟨0, by decide⟩ = (fun _ => 0)
      ∧ (Optim1.forward mEx yAlt2 uAlt2).2 0 ⟨0, by decide⟩ = (fun _ => 0)
      ∧ (Optim1.forward mEx yEx2 uEx2).1 0 ⟨0, by decide⟩
          = mEx.nonlinear_cellZ.forward (fun _ => 0)
      ∧ (Optim1.forward mEx yEx2 uEx2).1 0 ⟨0, by decide⟩
          = (Optim1.forward mEx yAlt2 uAlt2).1 0 ⟨0, by decide⟩) :=
  ⟨by decide, C10_time0_input_independence mEx yEx2 uEx2 yAlt2 uAlt2 0 0 (by decide)⟩

/-- C2: for every valid `behavStates : (B,T,Dxb)`, `y : (B,T,Dy)`,
`u : (B,T,Du)`, the Stage-2 residual sequence of `Optim3.forward` satisfies
`x[0] = 0` and `x[t+1] = A'·x[t] + K'·c[t] + B'·u[t]` where the driving
vector `c[t]` is the concatenation of `y[t]` followed by `behavStates[t]`
in that order (`Fin.append`), and the output keeps states `0..T-1`. -/
theorem C2_stage2_recurrence {B T xb xn ys us yh : Nat}
    (m : Optim3 xb xn ys us yh)
    (behavStates : Fin B → Fin T → Fin xb → ℝ)
    (y : Fin B → Fin T → Fin ys → ℝ) (u : Fin B → Fin T → Fin us → ℝ)
    (b : Fin B) (hT : 0 < T) :
    (Optim3.forward m behavStates y u).2 b ⟨0, hT⟩ = (fun _ => 0)
    ∧ (∀ (t : Nat) (h : t + 1 < T),
        (Optim3.forward m behavStates y u).2 b ⟨t + 1, h⟩
          = m.rnn_cell.forward
              ((Optim3.forward m behavStates y u).2 b ⟨t, Nat.lt_of_succ_lt h⟩)
              (Fin.append (y b ⟨t, Nat.lt_of_succ_lt h⟩)
                (behavStates b ⟨t, Nat.lt_of_succ_lt h⟩))
              (u b ⟨t, Nat.lt_of_succ_lt h⟩))
    ∧ (Optim3.forward m behavStates y u).2 b
        = fun t : Fin T => Optim3.states m
            (fun s => Fin.append (y b s) (behavStates b s)) (u b) t.1 := by
  refine ⟨rfl, ?_, rfl⟩
  intro t h
  show Optim3.states m _ _ (t + 1) = _
  simp [Optim3.states, padT, Nat.lt_of_succ_lt h]
  rfl

/-- Witness for C2 at a concrete Stage-2 module and concrete (1,2,1)
inputs. -/
theorem C2_stage2_recurrence_witness :
    0 < 2
    ∧ ((Optim3.forward m3Ex yAlt2 yEx2 uEx2).2 0 ⟨0, by decide⟩ = (fun _ => 0)
      ∧ (∀ (t : Nat) (h : t + 1 < 2),
          (Optim3.forward m3Ex yAlt2 yEx2 uEx2).2 0 ⟨t + 1, h⟩
            = m3Ex.rnn_cell.forward
                ((Optim3.forward m3Ex yAlt2 yEx2 uEx2).2 0 ⟨t, Nat.lt_of_succ_lt h⟩)
                (Fin.append (yEx2 0 ⟨t, Nat.lt_of_succ_lt h⟩)
                  (yAlt2 0 ⟨t, Nat.lt_of_succ_lt h⟩))
                (uEx2 0 ⟨t, Nat.lt_of_succ_lt h⟩))
      ∧ (Optim3.forward m3Ex yAlt2 yEx2 uEx2).2 0
          = fun t : Fin 2 => Optim3.states m3Ex
              (fun s => Fin.append (yEx2 0 s) (yAlt2 0 s)) (uEx2 0) t.1) :=
  ⟨by decide, C2_stage2_recurrence m3Ex yAlt2 yEx2 uEx2 0 (by decide)⟩

/-- C6: when the Stage-1 maps `W_K` and `W_A` are identically zero (weight
and bias), the latent sequence of `Optim1.forward` is the pure input
accumulation `x[0] = 0`, `x[t+1] = W_B(u[t])`, independent of `y` and of
earlier states. -/
theorem C6_pure_input_accumulation {B T xb ys us zh : Nat}
    (m : Optim1 xb ys us zh)
    (hAw : m.rnn_cell.W_A.weight = fun _ _ => 0)
    (hAb : m.rnn_cell.W_A.bias = fun _ => 0)
    (hKw : m.rnn_cell.W_K.weight = fun _ _ => 0)
    (hKb : m.rnn_cell.W_K.bias = fun _ => 0)
    (y : Fin B → Fin T → Fin ys → ℝ) (u : Fin B → Fin T → Fin us → ℝ)
    (b : Fin B) (hT : 0 < T) :
    (Optim1.forward m y u).2 b ⟨0, hT⟩ = (fun _ => 0)
    ∧ ∀ (t : Nat) (h : t + 1 < T),
        (Optim1.forward m y u).2 b ⟨t + 1, h⟩
          = m.rnn_cell.W_B.apply (u b ⟨t, Nat.lt_of_succ_lt h⟩) := by
  refine ⟨rfl, ?_⟩
  intro t h
  show Optim1.states m (y b) (u b) (t + 1) = _
  funext i
  simp [Optim1.states, Optim1Cell.forward, Linear.apply, padT,
    Nat.lt_of_succ_lt h, hAw, hAb, hKw, hKb]

/-- Witness for C6 at the zero-`A`/zero-`K` module `mEx6`, with `T = 3`,
`Du = 1`, `Dxb = 1` as in the spec's hand-checkable example. -/
theorem C6_pure_input_accumulation_witness :
    (mEx6.rnn_cell.W_A.weight = fun _ _ => 0)
    ∧ (mEx6.rnn_cell.W_A.bias = fun _ => 0)
    ∧ (mEx6.rnn_cell.W_K.weight = fun _ _ => 0)
    ∧ (mEx6.rnn_cell.W_K.bias = fun _ => 0)
    ∧ 0 < 3
    ∧ ((Optim1.forward mEx6 yEx3 uEx3).2 0 ⟨0, by decide⟩ = (fun _ => 0)
      ∧ ∀ (t : Nat) (h : t + 1 < 3),
          (Optim1.forward mEx6 yEx3 uEx3).2 0 ⟨t + 1, h⟩
            = mEx6.rnn_cell.W_B.apply (uEx3 0 ⟨t, Nat.lt_of_succ_lt h⟩)) :=
  ⟨rfl, rfl, rfl, rfl, by decide,
    C6_pure_input_accumulation mEx6 rfl rfl rfl rfl yEx3 uEx3 0 (by decide)⟩

/-- C7 as stated is false: with `Du = 0` the term `W_B(u_t)` of
`Optim1Cell.forward` is the bias of `W_B`, not zero.  At the concrete cell
`cellEx7` (whose `W_B` bias is 1) the update differs from the recurrence
with the input-gain term absent. -/
theorem C7_counterexample :
    Optim1Cell.forward cellEx7 (fun _ => 0) (fun _ => 0) Fin.elim0 0
      ≠ cellEx7.W_A.apply (fun _ => 0) 0 + cellEx7.W_K.apply (fun _ => 0) 0 := by
  simp [Optim1Cell.forward, Linear.apply, cellEx7, linZero]

/-- C7 amended: when `Du = 0`, the input-gain term `W_B(u_t)` of the
Stage-1 update degenerates to the constant bias vector of `W_B` —
independent of `u`, so it contributes nothing input-dependent (and exactly
zero when that bias is zero) — while the map still exists with the
configured shape. -/
theorem C7_zero_width_input {xs ys : Nat} (c : Optim1Cell xs ys 0)
    (x : Fin xs → ℝ) (y : Fin ys → ℝ) (u u' : Fin 0 → ℝ) :
    c.W_B.apply u = c.W_B.bias
    ∧ c.forward x y u = c.forward x y u'
    ∧ c.forward x y u
        = fun i => c.W_A.apply x i + c.W_K.apply y i + c.W_B.bias i := by
  have key : ∀ v : Fin 0 → ℝ, c.W_B.apply v = c.W_B.bias := by
    intro v
    funext i
    simp [Linear.apply]
  refine ⟨key u, ?_, ?_⟩
  · funext i
    simp [Optim1Cell.forward, key u, key u']
  · funext i
    simp [Optim1Cell.forward, key u]

/-- The Stage-1 state recursion only reads inputs at indices strictly below
the step count, so two input pairs agreeing on a prefix produce the same
states along that prefix. -/
theorem Optim1.states_agree_of_le {T T' xb ys us zh : Nat} (m : Optim1 xb ys us zh)
    (y : Fin T → Fin ys → ℝ) (u : Fin T → Fin us → ℝ)
    (y' : Fin T' → Fin ys → ℝ) (u' : Fin T' → Fin us → ℝ)
    (hle : T' ≤ T)
    (hy : ∀ t : Fin T', y' t = y ⟨t.1, lt_of_lt_of_le t.2 hle⟩)
    (hu : ∀ t : Fin T', u' t = u ⟨t.1, lt_of_lt_of_le t.2 hle⟩) :
    ∀ n, n ≤ T' → Optim1.states m y' u' n = Optim1.states m y u n := by
  intro n
  induction n with
  | zero => intro _; rfl
  | succ k ih =>
      intro hk
      have hkT' : k < T' := hk
      have hkT : k < T := lt_of_lt_of_le hkT' hle
      have hyk := hy ⟨k, hkT'⟩
      have huk := hu ⟨k, hkT'⟩
      simp only [Optim1.states, padT, dif_pos hkT', dif_pos hkT,
        ih (Nat.le_of_lt hkT'), hyk, huk]

/-- C8: for the same module, running `Optim1.forward` on length-`T` inputs
and on length-`T'` prefixes of the same inputs (`T' ≤ T`) yields both
outputs (`z_hats1` and `behavStates`) identical on the first `T'` steps —
no state persists across separate forward passes. -/
theorem C8_no_cross_call_state {B T T' xb ys us zh : Nat}
    (m : Optim1 xb ys us zh) (hle : T' ≤ T)
    (y : Fin B → Fin T → Fin ys → ℝ) (u : Fin B → Fin T → Fin us → ℝ)
    (y' : Fin B → Fin T' → Fin ys → ℝ) (u' : Fin B → Fin T' → Fin us → ℝ)
    (hy : ∀ (b : Fin B) (t : Fin T'), y' b t = y b ⟨t.1, lt_of_lt_of_le t.2 hle⟩)
    (hu : ∀ (b : Fin B) (t : Fin T'), u' b t = u b ⟨t.1, lt_of_lt_of_le t.2 hle⟩)
    (b : Fin B) (t : Fin T') :
    (Optim1.forward m y' u').1 b t
      = (Optim1.forward m y u).1 b ⟨t.1, lt_of_lt_of_le t.2 hle⟩
    ∧ (Optim1.forward m y' u').2 b t
      = (Optim1.forward m y u).2 b ⟨t.1, lt_of_lt_of_le t.2 hle⟩ := by
  have hs := Optim1.states_agree_of_le m (y b) (u b) (y' b) (u' b) hle
    (hy b) (hu b) t.1 (Nat.le_of_lt t.2)
  constructor
  · show m.nonlinear_cellZ.forward _ = m.nonlinear_cellZ.forward _
    rw [hs]
  · exact hs

/-- Witness for C8 with `T = 8` and `T' = 5`, all-ones inputs, checked at
time index 4. -/
theorem C8_no_cross_call_state_witness :
    5 ≤ 8
    ∧ ((Optim1.forward mEx yEx5 uEx5).1 0 4 = (Optim1.forward mEx yEx8 uEx8).1 0 4
      ∧ (Optim1.forward mEx yEx5 uEx5).2 0 4 = (Optim1.forward mEx yEx8 uEx8).2 0 4) :=
  ⟨by decide, C8_no_cross_call_state mEx (by decide) yEx8 uEx8 yEx5 uEx5
    (fun _ _ => rfl) (fun _ _ => rfl) 0 4⟩

/-- The logistic sigmoid is strictly positive. -/
theorem sigmoid_pos (x : ℝ) : 0 < sigmoid x := by
  unfold sigmoid
  positivity

/-- The logistic sigmoid is strictly below one. -/
theorem sigmoid_lt_one (x : ℝ) : sigmoid x < 1 := by
  unfold sigmoid
  rw [div_lt_one (by positivity)]
  linarith [Real.exp_pos (-x)]

/-- C9: every component of every decoder output — `z_hats1` from `Optim1`,
`y_hats1` from `Optim2`, `y_hats2` from `Optim3`, `z_hats2` from `Optim4` —
lies strictly in `(0,1)`, because each decoder ends in a logistic
sigmoid. -/
theorem C9_decoder_range :
    (∀ (B T xb ys us zh : Nat) (m : Optim1 xb ys us zh)
        (y : Fin B → Fin T → Fin ys → ℝ) (u : Fin B → Fin T → Fin us → ℝ)
        (b : Fin B) (t : Fin T) (i : Fin zh),
        0 < (Optim1.forward m y u).1 b t i ∧ (Optim1.forward m y u).1 b t i < 1)
    ∧ (∀ (B T xb yh : Nat) (m : Optim2 xb yh)
        (xBehav : Fin B → Fin T → Fin xb → ℝ)
        (b : Fin B) (t : Fin T) (i : Fin yh),
        0 < Optim2.forward m xBehav b t i ∧ Optim2.forward m xBehav b t i < 1)
    ∧ (∀ (B T xb xn ys us yh : Nat) (m : Optim3 xb xn ys us yh)
        (behavStates : Fin B → Fin T → Fin xb → ℝ)
        (y : Fin B → Fin T → Fin ys → ℝ) (u : Fin B → Fin T → Fin us → ℝ)
        (b : Fin B) (t : Fin T) (i : Fin yh),
        0 < (Optim3.forward m behavStates y u).1 b t i
          ∧ (Optim3.forward m behavStates y u).1 b t i < 1)
    ∧ (∀ (B T xn zh : Nat) (m : Optim4 xn zh)
        (xNeural : Fin B → Fin T → Fin xn → ℝ)
        (b : Fin B) (t : Fin T) (i : Fin zh),
        0 < Optim4.forward m xNeural b t i ∧ Optim4.forward m xNeural b t i < 1) := by
  refine ⟨?_, ?_, ?_, ?_⟩ <;> intros <;> exact ⟨sigmoid_pos _, sigmoid_lt_one _⟩

/-- Python list indexing at `t` is unchanged by dropping elements beyond a
bound above `t`. -/
theorem take_get_row : ∀ (l : List Vec) (n t : Nat), t < n →
    (l.take n).get? t = l.get? t := by
  intro l
  induction l with
  | nil => intro n t _; simp
  | cons a l ih =>
      intro n t ht
      cases n with
      | zero => exact absurd ht (Nat.not_lt_zero t)
      | succ n =>
          cases t with
          | zero => simp
          | succ t => simpa using ih n t (Nat.lt_of_succ_lt_succ ht)

/-- `x[:, t, :]` does not see time steps beyond `t`, so truncating every
batch row above `t` leaves the slice unchanged. -/
theorem sliceT_take (u : Ten3) (n t : Nat) (ht : t < n) :
    sliceT (u.map fun row => row.take n) t = sliceT u t := by
  induction u with
  | nil => rfl
  | cons row rest ih =>
      simp only [List.map_cons, sliceT, take_get_row row n t ht, ih]

/-- The Stage-1 loop body only reads `u` at the time indices it iterates
over, so truncating `u` beyond those indices leaves the loop's result
unchanged. -/
theorem Optim1L.loop_take (m : Optim1L) (y u : Ten3) (n : Nat) :
    ∀ (ts : List Nat) (x : Mat), (∀ t ∈ ts, t < n) →
      Optim1L.loop m y (u.map fun row => row.take n) x ts
        = Optim1L.loop m y u x ts := by
  intro ts
  induction ts with
  | nil => intro x _; rfl
  | cons t ts ih =>
      intro x h
      have ht : t < n := h t (List.mem_cons_self t ts)
      have hts : ∀ s ∈ ts, s < n := fun s hs => h s (List.mem_cons_of_mem t hs)
      have hrec : ∀ x2 : Mat,
          Optim1L.loop m y (u.map fun row => row.take n) x2 ts
            = Optim1L.loop m y u x2 ts := fun x2 => ih x2 hts
      simp only [Optim1L.loop, sliceT_take u n t ht, hrec]

/-- C5 as stated is false: `Optim1L.run` on the concrete module `mEx5L`
with `y` of sequence length 1 and `u` of sequence length 2 succeeds
(returns `some`) instead of failing fast, and returns exactly the result of
running on `u` silently truncated to `y`'s length. -/
theorem C5_counterexample :
    seqLenOf uEx5L ≠ seqLenOf yEx5L
    ∧ (Optim1L.run mEx5L yEx5L uEx5L).isSome = true
    ∧ Optim1L.run mEx5L yEx5L uEx5L = Optim1L.run mEx5L yEx5L [[[0]]] := by
  refine ⟨by decide, rfl, rfl⟩

/-- `Optim1.forward` reads `u` only at time indices below `y`'s sequence
length, so running on `u` equals running on `u` truncated to that length. -/
theorem Optim1L.run_take (m : Optim1L) (y u : Ten3) :
    Optim1L.run m y u
      = Optim1L.run m y (u.map fun row => row.take (seqLenOf y)) := by
  unfold Optim1L.run
  refine (Optim1L.loop_take m y u (seqLenOf y) (List.range (seqLenOf y)) _ ?_).symm
  intro t htm
  exact List.mem_range.mp htm

/-- The Stage-2 loop body only reads `u` at the time indices it iterates
over, so truncating `u` beyond those indices leaves the loop's result
unchanged. -/
theorem Optim3L.stage2_loop_take (m : Optim3L) (yx u : Ten3) (n : Nat) :
    ∀ (ts : List Nat) (x : Mat), (∀ t ∈ ts, t < n) →
      Optim3L.loop m yx (u.map fun row => row.take n) x ts
        = Optim3L.loop m yx u x ts := by
  intro ts
  induction ts with
  | nil => intro x _; rfl
  | cons t ts ih =>
      intro x h
      have ht : t < n := h t (List.mem_cons_self t ts)
      have hts : ∀ s ∈ ts, s < n := fun s hs => h s (List.mem_cons_of_mem t hs)
      have hrec : ∀ x2 : Mat,
          Optim3L.loop m yx (u.map fun row => row.take n) x2 ts
            = Optim3L.loop m yx u x2 ts := fun x2 => ih x2 hts
      simp only [Optim3L.loop, sliceT_take u n t ht, hrec]

/-- `Optim3.forward` also reads `u` only at indices below `y`'s sequence
length (the concatenation does not involve `u`), so trailing steps of `u`
are likewise ignored. -/
theorem Optim3L.stage2_run_take (m : Optim3L) (behavStates y u : Ten3) :
    Optim3L.run m behavStates y u
      = Optim3L.run m behavStates y (u.map fun row => row.take (seqLenOf y)) := by
  unfold Optim3L.run
  cases hc : catDim2 y behavStates with
  | none => rfl
  | some yx =>
      exact (Optim3L.stage2_loop_take m yx u (seqLenOf y) (List.range (seqLenOf y)) _
        (fun t htm => List.mem_range.mp htm)).symm

/-- If one batch row of `u` has no entry at time `t`, then `u[:, t, :]`
raises (`none`). -/
theorem sliceT_none_of_row (u : Ten3) (row : List Vec) (t : Nat)
    (hmem : row ∈ u) (hrow : row.get? t = none) : sliceT u t = none := by
  induction u with
  | nil => cases hmem
  | cons r rest ih =>
      rcases List.mem_cons.mp hmem with hr | hr
      · subst hr
        simp only [sliceT]
        rw [hrow]
        rfl
      · cases hget : r.get? t with
        | none =>
            simp only [sliceT]
            rw [hget]
            rfl
        | some v =>
            simp only [sliceT]
            rw [hget]
            show (sliceT rest t).bind _ = none
            rw [ih hr]
            rfl

/-- The Stage-1 loop fails whenever slicing `u` fails at one of the time
indices it visits: `Option` failure propagates and nothing recovers it. -/
theorem Optim1L.loop_none_of_slice (m : Optim1L) (y u : Ten3) :
    ∀ (ts : List Nat) (x : Mat) (t : Nat), t ∈ ts → sliceT u t = none →
      Optim1L.loop m y u x ts = none := by
  intro ts
  induction ts with
  | nil => intro x t htm; cases htm
  | cons s ts ih =>
      intro x t htm hnone
      rcases List.mem_cons.mp htm with hst | hmem
      · subst hst
        cases h1 : sliceT y t with
        | none => simp [Optim1L.loop, h1]
        | some yt => simp [Optim1L.loop, h1, hnone]
      · cases h1 : sliceT y s with
        | none => simp [Optim1L.loop, h1]
        | some yt =>
            cases h2 : sliceT u s with
            | none => simp [Optim1L.loop, h1, h2]
            | some ut =>
                cases h3 : m.rnn_cell.run x yt ut with
                | none => simp [Optim1L.loop, h1, h2, h3]
                | some xn =>
                    cases h4 : m.nonlinear_cellZ.run x with
                    | none => simp [Optim1L.loop, h1, h2, h3, h4]
                    | some z =>
                        simp [Optim1L.loop, h1, h2, h3, h4, ih xn t hmem hnone]

/-- The Stage-2 loop fails whenever slicing `u` fails at one of the time
indices it visits. -/
theorem Optim3L.stage2_loop_none_of_slice (m : Optim3L) (yx u : Ten3) :
    ∀ (ts : List Nat) (x : Mat) (t : Nat), t ∈ ts → sliceT u t = none →
      Optim3L.loop m yx u x ts = none := by
  intro ts
  induction ts with
  | nil => intro x t htm; cases htm
  | cons s ts ih =>
      intro x t htm hnone
      rcases List.mem_cons.mp htm with hst | hmem
      · subst hst
        cases h1 : sliceT yx t with
        | none => simp [Optim3L.loop, h1]
        | some yt => simp [Optim3L.loop, h1, hnone]
      · cases h1 : sliceT yx s with
        | none => simp [Optim3L.loop, h1]
        | some yt =>
            cases h2 : sliceT u s with
            | none => simp [Optim3L.loop, h1, h2]
            | some ut =>
                cases h3 : m.rnn_cell.run x yt ut with
                | none => simp [Optim3L.loop, h1, h2, h3]
                | some xn =>
                    cases h4 : m.nonlinear_cellY.run x with
                    | none => simp [Optim3L.loop, h1, h2, h3, h4]
                    | some z =>
                        simp [Optim3L.loop, h1, h2, h3, h4, ih xn t hmem hnone]

/-- `torch.cat` raises when the batch counts of its two arguments differ. -/
theorem catDim2_none_of_batch (y : Ten3) :
    ∀ behavStates : Ten3, y.length ≠ behavStates.length →
      catDim2 y behavStates = none := by
  induction y with
  | nil =>
      intro behavStates h
      cases behavStates with
      | nil => exact absurd rfl h
      | cons b bs => rfl
  | cons a as ih =>
      intro behavStates h
      cases behavStates with
      | nil => rfl
      | cons b bs =>
          by_cases hab : a.length = b.length
          · have hlen : as.length ≠ bs.length := by
              intro hh
              exact h (by simp [hh])
            simp [catDim2, hab, ih bs hlen]
          · simp [catDim2, hab]

/-- `torch.cat` raises when two aligned batch rows of its arguments have
different sequence lengths. -/
theorem catDim2_none_of_seq (y : Ten3) :
    ∀ (behavStates : Ten3) (i : Nat) (ra rb : List Vec),
      y.get? i = some ra → behavStates.get? i = some rb →
      ra.length ≠ rb.length → catDim2 y behavStates = none := by
  induction y with
  | nil => intro behavStates i ra rb hy; simp at hy
  | cons a as ih =>
      intro behavStates i ra rb hy hb hne
      cases behavStates with
      | nil => rfl
      | cons b bs =>
          cases i with
          | zero =>
              simp only [List.get?] at hy hb
              cases hy
              cases hb
              simp [catDim2, hne]
          | succ i =>
              by_cases hab : a.length = b.length
              · simp only [List.get?] at hy hb
                simp [catDim2, hab, ih bs i ra rb hy hb hne]
              · simp [catDim2, hab]

/-- C5 amended: the forward passes perform no shape validation of their
own; mismatches are left to the underlying tensor operations, whose
outcomes differ by mismatch.  In both `Optim1.forward` and `Optim3.forward`
the sequence length is read from `y` alone and a `u` stream longer than `y`
is silently truncated to `y`'s length (such a call succeeds — no
fail-fast); a `u` stream with fewer time steps than `y` makes either call
fail through the loop's out-of-range indexing of `u`; a feature-width
disagreement with a configured layer width makes that linear layer's
application fail; and in `Optim3.forward` a batch-count or sequence-length
mismatch between `y` and `behavStates` makes the `torch.cat` fail, which
aborts the call before the loop runs. -/
theorem C5_shape_mismatch_semantics :
    (∀ (m : Optim1L) (y u : Ten3),
        Optim1L.run m y u
          = Optim1L.run m y (u.map fun row => row.take (seqLenOf y)))
    ∧ (∀ (m : Optim3L) (behavStates y u : Ten3),
        Optim3L.run m behavStates y u
          = Optim3L.run m behavStates y (u.map fun row => row.take (seqLenOf y)))
    ∧ (∀ (m : Optim1L) (y u : Ten3) (row : List Vec),
        row ∈ u → row.length < seqLenOf y → Optim1L.run m y u = none)
    ∧ (∀ (m : Optim3L) (behavStates y u : Ten3) (row : List Vec),
        row ∈ u → row.length < seqLenOf y → Optim3L.run m behavStates y u = none)
    ∧ (∀ (L : LinearL) (x : Vec), x.length ≠ L.in_features → L.applyV x = none)
    ∧ (∀ (m : Optim3L) (behavStates y u : Ten3),
        catDim2 y behavStates = none → Optim3L.run m behavStates y u = none)
    ∧ (∀ (y behavStates : Ten3), y.length ≠ behavStates.length →
        catDim2 y behavStates = none)
    ∧ (∀ (y behavStates : Ten3) (i : Nat) (ra rb : List Vec),
        y.get? i = some ra → behavStates.get? i = some rb →
        ra.length ≠ rb.length → catDim2 y behavStates = none) := by
  refine ⟨Optim1L.run_take, Optim3L.stage2_run_take, ?_, ?_, ?_, ?_,
    catDim2_none_of_batch, catDim2_none_of_seq⟩
  · intro m y u row hmem hlen
    have hs : sliceT u row.length = none :=
      sliceT_none_of_row u row row.length hmem (List.get?_eq_none.mpr le_rfl)
    exact Optim1L.loop_none_of_slice m y u (List.range (seqLenOf y)) _
      row.length (List.mem_range.mpr hlen) hs
  · intro m behavStates y u row hmem hlen
    have hs : sliceT u row.length = none :=
      sliceT_none_of_row u row row.length hmem (List.get?_eq_none.mpr le_rfl)
    unfold Optim3L.run
    cases hc : catDim2 y behavStates with
    | none => rfl
    | some yx =>
        exact Optim3L.stage2_loop_none_of_slice m yx u (List.range (seqLenOf y)) _
          row.length (List.mem_range.mpr hlen) hs
  · intro L x hx
    simp [LinearL.applyV, hx]
  · intro m behavStates y u hc
    unfold Optim3L.run
    rw [hc]
    rfl

/-- Witness for C5's amended theorem: the silent-truncation clauses at the
concrete module and tensors of the counterexample; a `u` one step shorter
than `y` failing in both stages; a width-2 vector rejected by the 1-input
layer `linL0`; and the Stage-2 concatenation failing on a sequence-length
and on a batch-count mismatch, aborting the Stage-2 call. -/
theorem C5_shape_mismatch_semantics_witness :
    (Optim1L.run mEx5L yEx5L uEx5L
        = Optim1L.run mEx5L yEx5L (uEx5L.map fun row => row.take (seqLenOf yEx5L)))
    ∧ (Optim3L.run m3Ex5L yEx5L yEx5L uEx5L
        = Optim3L.run m3Ex5L yEx5L yEx5L (uEx5L.map fun row => row.take (seqLenOf yEx5L)))
    ∧ ([[(0 : ℝ)]] ∈ yEx5L ∧ ([[(0 : ℝ)]] : List Vec).length < seqLenOf uEx5L
        ∧ Optim1L.run mEx5L uEx5L yEx5L = none)
    ∧ ([[(0 : ℝ)]] ∈ yEx5L ∧ ([[(0 : ℝ)]] : List Vec).length < seqLenOf uEx5L
        ∧ Optim3L.run m3Ex5L uEx5L uEx5L yEx5L = none)
    ∧ (([0, 0] : Vec).length ≠ linL0.in_features ∧ linL0.applyV [0, 0] = none)
    ∧ (yEx5L.get? 0 = some [[0]] ∧ uEx5L.get? 0 = some [[0], [0]]
        ∧ ([[(0 : ℝ)]] : List Vec).length ≠ ([[0], [0]] : List Vec).length
        ∧ catDim2 yEx5L uEx5L = none
        ∧ Optim3L.run m3Ex5L uEx5L yEx5L yEx5L = none)
    ∧ (yEx5L.length ≠ ([] : Ten3).length ∧ catDim2 yEx5L [] = none) := by
  have h := C5_shape_mismatch_semantics
  have hmem : [[(0 : ℝ)]] ∈ yEx5L := List.mem_cons_self _ _
  have hcat : catDim2 yEx5L uEx5L = none :=
    h.2.2.2.2.2.2.2 yEx5L uEx5L 0 [[0]] [[0], [0]] rfl rfl (by decide)
  refine ⟨h.1 mEx5L yEx5L uEx5L, h.2.1 m3Ex5L yEx5L yEx5L uEx5L,
    ⟨hmem, by decide, h.2.2.1 mEx5L uEx5L yEx5L [[0]] hmem (by decide)⟩,
    ⟨hmem, by decide, h.2.2.2.1 m3Ex5L uEx5L uEx5L yEx5L [[0]] hmem (by decide)⟩,
    ⟨by decide, h.2.2.2.2.1 linL0 [0, 0] (by decide)⟩,
    ⟨rfl, rfl, by decide, hcat, h.2.2.2.2.2.1 m3Ex5L uEx5L yEx5L yEx5L hcat⟩,
    ⟨by decide, h.2.2.2.2.2.2.1 yEx5L [] (by decide)⟩⟩

end Claims

end RnnIpsid
